import Mathlib

/-!
Shallow embedding of the `mtl` matrix library (include/matrix.hpp, the
modern lineage: `struct Matrix final` with runtime size pair and
reallocation flag), together with theorems settling the frozen claims.

Modelling conventions:
* `Matrix α` carries the runtime shape pair `size_` (fields `rows`, `cols`),
  the `has_been_reallocated` flag and the backing store as a total function
  `data : Nat -> Nat -> α`; cells outside the allocated region are
  unspecified in C++ (reading them is UB), and theorems only ever talk
  about in-range cells.
* `std::size_t` indices become `Nat`.  The bounds checks in the source are
  written `idx > (extent - 1)` on `size_t`; for positive extents this is
  exactly `idx > extent - 1` on `Nat`, and every theorem that depends on a
  bounds check carries the positivity hypothesis the claim itself assumes.
* throwing is modelled with `Except Exc`, where `Exc` mirrors the exception
  taxonomy (`std::out_of_range`, `std::invalid_argument`, `std::logic_error`).
* element type: the arithmetic operations are embedded at element type
  `Int` (one instantiation of the `detail::Arithmetic` template parameter);
  `det` works on a `double` copy, embedded at `ℚ` (exact real arithmetic;
  every concrete input used below is exactly representable in `double`).
-/

namespace Mtl

inductive Exc where
  | outOfRange
  | invalidArgument
  | logicError
  deriving DecidableEq

/-- Runtime state of `mtl::Matrix<T, I, J>`: the `size_` pair, the
`has_been_reallocated` flag, and the backing store `data`. -/
structure Matrix (α : Type) where
  rows : Nat
  cols : Nat
  reallocated : Bool
  data : Nat → Nat → α

/-- Model of `Matrix::zeros()` (private fill helper): despite its name it writes `1`
into every in-range cell (`data[i][j] = 1`). -/
def zerosFill (M : Matrix Int) : Matrix Int :=
  { M with data := fun i j => if i < M.rows ∧ j < M.cols then 1 else M.data i j }

/-- Model of `Matrix::Matrix()` (default constructor): `alloc(); zeros();`.
`junk` stands for the uninitialized storage `alloc()` hands back. -/
def defaultMatrix (rows cols : Nat) (junk : Nat → Nat → Int) : Matrix Int :=
  zerosFill { rows := rows, cols := cols, reallocated := false, data := junk }

/-- Model of `Matrix::realloc(r, c)`: `dealloc()`, set `size_`, `alloc(r, c)` (which
ends by calling `zeros()`), and set `has_been_reallocated = true`. -/
def Matrix.reallocTo (M : Matrix Int) (r c : Nat) : Matrix Int :=
  zerosFill { rows := r, cols := c, reallocated := true, data := M.data }

/-- Model of `Matrix::operator()(row, col)`: bounds-checked element access,
`if (row > row_size() - 1) throw std::out_of_range; if (col > col_size() - 1)
throw std::out_of_range; return data[row][col];`. -/
def Matrix.callOp (M : Matrix Int) (row col : Nat) : Except Exc Int :=
  if row > M.rows - 1 then .error .outOfRange
  else if col > M.cols - 1 then .error .outOfRange
  else .ok (M.data row col)

/-- Model of `Matrix::at(row, col)`: same body as `operator()`. -/
def Matrix.atEl (M : Matrix Int) (row col : Nat) : Except Exc Int :=
  if row > M.rows - 1 then .error .outOfRange
  else if col > M.cols - 1 then .error .outOfRange
  else .ok (M.data row col)

/-- Model of `Matrix::operator==` (matrix form): false on a runtime-shape mismatch,
otherwise an element-by-element scan over the runtime extents.  (The
`is_convertible` test in the source is trivially true at a single element
type.) -/
def matBeq (a b : Matrix Int) : Bool :=
  if a.rows ≠ b.rows ∨ a.cols ≠ b.cols then false
  else
    (List.range a.rows).all fun i =>
      (List.range a.cols).all fun j => a.data i j == b.data i j

/-- Model of `Matrix::transpose()`: builds a `Matrix<T, J, I>` (whose cells start out
as the default fill `1`), reallocs it to `(col_size(), row_size())` when the
source has been reallocated, then writes `result[j][i] = data[i][j]` for the
runtime range. -/
def Matrix.transpose (M : Matrix Int) : Matrix Int :=
  { rows := M.cols
    cols := M.rows
    reallocated := M.reallocated
    data := fun i j => if i < M.cols ∧ j < M.rows then M.data j i else 1 }

/-- Model of `mtl::multiply(lhs, rhs)`: throws `std::logic_error` when
`lhs.col_size() != rhs.row_size()`; otherwise the result (pre-sized to
`lhs.row_size() x rhs.col_size()`, reallocated when either operand is) gets
`result[i][j] = sum` of the triple loop, all other cells keeping the default
fill `1`. -/
def multiply (L R : Matrix Int) : Except Exc (Matrix Int) :=
  if L.cols ≠ R.rows then .error .logicError
  else
    .ok
      { rows := L.rows
        cols := R.cols
        reallocated := L.reallocated || R.reallocated
        data := fun i j =>
          if i < L.rows ∧ j < R.cols then
            ((List.range L.cols).map fun k => L.data i k * R.data k j).sum
          else 1 }

/-- Model of `Matrix::operator*=(matrix)`: copies `temp = *this`, throws
`std::logic_error` when `col_size() != matrix.row_size()`, then overwrites
`data[i][j]` for `i < temp.row_size()`, `j < matrix.col_size()` with the
triple-loop sum over `temp`.  The `size_` pair is left untouched. -/
def mulAssign (self other : Matrix Int) : Except Exc (Matrix Int) :=
  if self.cols ≠ other.rows then .error .logicError
  else
    .ok
      { self with
        data := fun i j =>
          if i < self.rows ∧ j < other.cols then
            ((List.range self.cols).map fun k => self.data i k * other.data k j).sum
          else self.data i j }

/-- The loop of `Matrix::power`: `result *= *this`, repeated; each `*=`
reads the fixed snapshot `M` on the right. -/
def powerLoop (M : Matrix Int) : Nat → Matrix Int → Except Exc (Matrix Int)
  | 0, acc => .ok acc
  | k + 1, acc =>
    match mulAssign acc M with
    | .ok acc2 => powerLoop M k acc2
    | .error e => .error e

/-- Model of `Matrix::power(p)`: `auto result = *this;` then `result *= *this`
repeated `p - 1` times, returned by value.  (For `p = 0` the C++ loop bound
`p - 1` underflows on `unsigned int`; the claims only concern `p >= 1`,
where `Nat` subtraction agrees.) -/
def Matrix.power (M : Matrix Int) (p : Nat) : Except Exc (Matrix Int) :=
  powerLoop M (p - 1) M

/-- Model of `Matrix::operator*=(scalar)`: in-place elementwise scale over the
runtime extents. -/
def scalarMulAssign (M : Matrix Int) (s : Int) : Matrix Int :=
  { M with
    data := fun i j =>
      if i < M.rows ∧ j < M.cols then M.data i j * s else M.data i j }

/-- Model of `operator*(U lhs, const Matrix& rhs)` (scalar on the left):
`const_cast<Matrix&>(rhs) *= lhs; return rhs;` — the operand itself is
scaled in place and then returned by value.  The embedding returns the pair
(returned value, final state of the operand `rhs`). -/
def scalarMulLeft (s : Int) (rhs : Matrix Int) : Matrix Int × Matrix Int :=
  let rhs2 := scalarMulAssign rhs s
  (rhs2, rhs2)

/-- Model of `Matrix::iterator`: a cursor holding a reference to its bound matrix
(`matId` identifies the bound instance) and a `(row, col)` position. -/
structure MatIterator where
  matId : Nat
  row : Nat
  col : Nat

/-- Model of `Matrix::iterator::operator==`:
`return row == iter.row and col == iter.col;` — the bound matrix member is
not consulted. -/
def iterBeq (a b : MatIterator) : Bool :=
  a.row == b.row && a.col == b.col

/-- Model of `mtl::Row<T, I, J>`: a view holding a reference to its bound matrix
(kept alongside, the embedding threads the matrix state explicitly), the
snapshot `std::vector<T> row`, and the bound row index `n_row`. -/
structure RowView where
  snapshot : List Int
  n_row : Nat

/-- Model of `Matrix::operator[](row)` (mutable): checks `row > row_size() - 1`
(throwing `std::out_of_range`) and then builds `Row(*this, row)`, whose
constructor copies `matrix(n_row, i)` for `i < col_size()` into the
snapshot. -/
def Matrix.indexOp (M : Matrix Int) (row : Nat) : Except Exc RowView :=
  if row > M.rows - 1 then .error .outOfRange
  else .ok { snapshot := (List.range M.cols).map fun i => M.data row i, n_row := row }

/-- Writing `v` through `Row::operator[](col)`: the operator checks
`col > matrix.col_size() - 1` and then returns the reference
`matrix(n_row, col)` (itself bounds-checked), so the write lands in the
bound matrix's live storage; the view's snapshot is untouched. -/
def rowWrite (M : Matrix Int) (rv : RowView) (col : Nat) (v : Int) :
    Except Exc (Matrix Int × RowView) :=
  if col > M.cols - 1 then .error .outOfRange
  else if rv.n_row > M.rows - 1 then .error .outOfRange
  else if col > M.cols - 1 then .error .outOfRange
  else
    .ok
      ({ M with
         data := fun i j => if i = rv.n_row ∧ j = col then v else M.data i j },
       rv)

/-- The fill loop of `Matrix::Matrix(std::initializer_list<T>)`: walk the
elements, writing `data[row_num][col_num] = elem` and advancing
column-first; at the very last cell neither counter advances. -/
def fillLoop (rows cols : Nat) : List Int → Nat × Nat → (Nat → Nat → Int) → Nat → Nat → Int
  | [], _, d => d
  | e :: rest, (rn, cn), d =>
    fillLoop rows cols rest
      (if cn ≠ cols - 1 then (rn, cn + 1)
       else if rn ≠ rows - 1 then (rn + 1, 0)
       else (rn, cn))
      (fun i j => if i = rn ∧ j = cn then e else d i j)

/-- Model of `Matrix::Matrix(std::initializer_list<T>)`: `alloc()` (uninitialized
cells stand in `junk`), throw `std::invalid_argument` when the element
count differs from `row_size() * col_size()`, else run the fill loop from
`(0, 0)`. -/
def ctorList (rows cols : Nat) (elems : List Int) (junk : Nat → Nat → Int) :
    Except Exc (Matrix Int) :=
  if elems.length ≠ rows * cols then .error .invalidArgument
  else
    .ok
      { rows := rows
        cols := cols
        reallocated := false
        data := fillLoop rows cols elems (0, 0) junk }

/-! ### The elimination determinant (`Matrix::det`), on the `double`
working copy, embedded at `ℚ`.  The working buffer is the row-indexed
store of `Matrix<double, I, J> temp(*this)`, modelled as a list of rows. -/

/-- Read `temp[r][c]` of the working buffer. -/
def getE (temp : List (List ℚ)) (r c : Nat) : ℚ :=
  (temp.getD r []).getD c 0

/-- The pivot-search loop of `det`:
`while (non_zero_row < row_size() && temp[non_zero_row][i] == 0) ++non_zero_row;`.
`fuel` only bounds the recursion; called with `fuel = n` it never runs out
before the loop guard fails. -/
def findRow (temp : List (List ℚ)) (n colI : Nat) : Nat → Nat → Nat
  | 0, r => r
  | fuel + 1, r =>
    if r < n ∧ getE temp r colI = 0 then findRow temp n colI fuel (r + 1) else r

/-- Row swap of step `i`: elementwise `std::swap(temp[i][j], temp[non_zero_row][j])`
over all columns, i.e. the two rows trade places. -/
def swapRows (temp : List (List ℚ)) (i r : Nat) : List (List ℚ) :=
  (temp.set i (temp.getD r [])).set r (temp.getD i [])

/-- One elimination pass below pivot row `i`:
`for k in i+1 .. n-1: factor = temp[k][i]; temp[k][j] -= factor * temp[i][j]`. -/
def elimBelow (n i : Nat) (temp : List (List ℚ)) : List (List ℚ) :=
  (List.range' (i + 1) (n - (i + 1))).foldl
    (fun t k =>
      t.set k ((List.range n).map fun j => getE t k j - getE t k i * getE t i j))
    temp

/-- The body of `det`'s outer `for` loop over pivot rows, with the running
determinant `acc`; `none` models the early `return 0.0` taken when no
non-zero pivot exists at or below row `i` in column `i`. -/
def detLoop (n : Nat) : Nat → Nat → List (List ℚ) → ℚ → Option ℚ
  | 0, _, _, acc => some acc
  | fuel + 1, i, temp, acc =>
    let r := findRow temp n i n i
    if r = n then none
    else
      let temp1 := if r ≠ i then swapRows temp i r else temp
      let acc1 := if r ≠ i then -acc else acc
      let pivot := getE temp1 i i
      let temp2 := temp1.set i ((List.range n).map fun j => getE temp1 i j / pivot)
      detLoop n fuel (i + 1) (elimBelow n i temp2) (acc1 * pivot)

/-- Model of `std::round`: round half away from zero. -/
def cppRound (x : ℚ) : ℤ :=
  if 0 ≤ x then ⌊x + 1 / 2⌋ else ⌈x - 1 / 2⌉

/-- Model of the `roundhelper` in `det`, with `precision = 5`:
`std::round(value * 100000) / 100000`. -/
def roundTo5 (x : ℚ) : ℚ :=
  (cppRound (x * 100000) : ℚ) / 100000

/-- Model of `Matrix::det()`: throws `std::logic_error` on a non-square runtime
shape; otherwise runs elimination with first-nonzero pivoting on the
working copy and rounds the final running product to 5 decimal places
(the singular early exit returns `0.0` directly). -/
def Matrix.det (M : Matrix ℚ) : Except Exc ℚ :=
  if M.rows ≠ M.cols then .error .logicError
  else
    let temp := (List.range M.rows).map fun i => (List.range M.cols).map fun j => M.data i j
    match detLoop M.rows M.rows 0 temp 1 with
    | none => .ok 0
    | some acc => .ok (roundTo5 acc)

/-! ### Concrete instances used as witnesses and counterexamples -/

/-- Build a matrix value with the given runtime shape from a row list
(plain test-input scaffolding, not a source operation). -/
def ofRows (r c : Nat) (e : List (List Int)) : Matrix Int :=
  { rows := r, cols := c, reallocated := false,
    data := fun i j => (e.getD i []).getD j 0 }

/-- Same scaffolding at element type `ℚ` (for `det`'s working copy). -/
def ofRowsQ (r c : Nat) (e : List (List ℚ)) : Matrix ℚ :=
  { rows := r, cols := c, reallocated := false,
    data := fun i j => (e.getD i []).getD j 0 }

def exL : Matrix Int := ofRows 2 3 [[1, 2, 3], [4, 5, 6]]

def exR : Matrix Int := ofRows 3 2 [[7, 8], [9, 10], [11, 12]]

def exM : Matrix Int := ofRows 2 2 [[1, 2], [3, 4]]

def exMsq : Matrix Int := ofRows 2 2 [[7, 10], [15, 22]]

def exMcube : Matrix Int := ofRows 2 2 [[37, 54], [81, 118]]

def exOne : Matrix Int := ofRows 1 1 [[3]]

/-! ### Claim theorems -/

/-- C1: for matrices with `L.cols = R.rows`, `mtl::multiply` returns a
matrix of shape `L.rows x R.cols` whose entry `(i, j)` is
`Σ_k L[i][k] * R[k][j]`; when `L.cols ≠ R.rows` it fails with
`std::logic_error`. -/
theorem multiply_spec (L R : Matrix Int) :
    (L.cols = R.rows →
      ∃ P, multiply L R = .ok P ∧ P.rows = L.rows ∧ P.cols = R.cols ∧
        ∀ i j, i < L.rows → j < R.cols →
          P.data i j = ∑ k ∈ Finset.range L.cols, L.data i k * R.data k j) ∧
    (L.cols ≠ R.rows → multiply L R = .error .logicError) := by
  constructor
  · intro h
    simp only [multiply, if_neg (not_ne_iff.mpr h)]
    refine ⟨_, rfl, rfl, rfl, ?_⟩
    intro i j hi hj
    simp only [hi, hj, and_self, if_true]
    rfl
  · intro h
    simp only [multiply, if_pos h]

/-- C1 witness: a 2x3 by 3x2 product, and a shape-mismatched pair. -/
theorem multiply_spec_witness :
    exL.cols = exR.rows ∧
    (∃ P, multiply exL exR = .ok P ∧ P.rows = exL.rows ∧ P.cols = exR.cols ∧
      ∀ i j, i < exL.rows → j < exR.cols →
        P.data i j = ∑ k ∈ Finset.range exL.cols, exL.data i k * exR.data k j) ∧
    exL.cols ≠ exL.rows ∧ multiply exL exL = .error .logicError :=
  ⟨rfl, (multiply_spec exL exR).1 rfl, by decide,
    (multiply_spec exL exL).2 (by decide)⟩

/-- C3: `M * M` for `M = {{1,2},{3,4}}` is `{{7,10},{15,22}}`, `M.power 2`
returns the same value, and `M.power 3` is the snapshot-based cube
`{{37,54},{81,118}}` (each `*=` step multiplies by the fixed original). -/
theorem power_spec :
    (∃ P, multiply exM exM = .ok P ∧ matBeq P exMsq = true) ∧
    (∃ Q, exM.power 2 = .ok Q ∧ matBeq Q exMsq = true) ∧
    (∃ R, exM.power 3 = .ok R ∧ matBeq R exMcube = true) :=
  ⟨⟨_, rfl, by decide⟩, ⟨_, rfl, by decide⟩, ⟨_, rfl, by decide⟩⟩

/-- C4: for positive runtime extents, the bounds-checked accessors
`operator()` and `at` fail with `std::out_of_range` exactly when
`row ≥ rows` or `col ≥ cols`, and return the stored element otherwise. -/
theorem access_spec (M : Matrix Int) (row col : Nat)
    (hr : 0 < M.rows) (hc : 0 < M.cols) :
    (M.callOp row col = .error .outOfRange ↔ M.rows ≤ row ∨ M.cols ≤ col) ∧
    (M.atEl row col = .error .outOfRange ↔ M.rows ≤ row ∨ M.cols ≤ col) ∧
    (row < M.rows → col < M.cols →
      M.callOp row col = .ok (M.data row col) ∧
      M.atEl row col = .ok (M.data row col)) := by
  simp only [Matrix.callOp, Matrix.atEl]
  by_cases h1 : row > M.rows - 1 <;> by_cases h2 : col > M.cols - 1 <;>
    simp [h1, h2] <;> omega

/-- C4 witness: a 2x3 matrix probed in range, at each boundary, and
beyond. -/
theorem access_spec_witness :
    (0 < exL.rows ∧ 0 < exL.cols) ∧
    (exL.callOp 2 0 = .error .outOfRange ↔ exL.rows ≤ 2 ∨ exL.cols ≤ 0) ∧
    (exL.callOp 1 3 = .error .outOfRange ↔ exL.rows ≤ 1 ∨ exL.cols ≤ 3) ∧
    (1 < exL.rows → 2 < exL.cols →
      exL.callOp 1 2 = .ok (exL.data 1 2) ∧ exL.atEl 1 2 = .ok (exL.data 1 2)) :=
  ⟨⟨by decide, by decide⟩,
    (access_spec exL 2 0 (by decide) (by decide)).1,
    (access_spec exL 1 3 (by decide) (by decide)).1,
    (access_spec exL 1 2 (by decide) (by decide)).2.2⟩

/-- C6 counterexample: two iterators bound to different matrix instances
but holding the same `(row, col)` position compare equal under
`iterator::operator==`, so equality does not compare bound-matrix
identity. -/
theorem iterBeq_cex :
    iterBeq { matId := 0, row := 1, col := 2 } { matId := 1, row := 1, col := 2 } = true ∧
    MatIterator.matId { matId := 0, row := 1, col := 2 } ≠
      MatIterator.matId { matId := 1, row := 1, col := 2 } := by
  decide

/-- C6 amended: iterator equality compares exactly the `(row, col)`
position, ignoring which matrix the iterators are bound to. -/
theorem iterBeq_amended (a b : MatIterator) :
    iterBeq a b = true ↔ a.row = b.row ∧ a.col = b.col := by
  simp [iterBeq]

/-- C7 counterexample: `operator*(scalar, matrix)` scales the matrix
operand itself in place (through `const_cast`), so the operand does not
stay unchanged. -/
theorem scalarMulLeft_cex :
    (scalarMulLeft 2 exOne).2.data 0 0 = 6 ∧ exOne.data 0 0 = 3 ∧
    matBeq (scalarMulLeft 2 exOne).2 exOne = false := by
  decide

/-- C7 amended: scalar-on-the-left multiplication returns the
elementwise-scaled result, but it also overwrites the matrix operand with
that same scaled value instead of leaving it unchanged. -/
theorem scalarMulLeft_spec (s : Int) (M : Matrix Int) :
    (scalarMulLeft s M).1 = scalarMulAssign M s ∧
    (scalarMulLeft s M).2 = scalarMulAssign M s ∧
    (scalarMulLeft s M).1.rows = M.rows ∧
    (scalarMulLeft s M).1.cols = M.cols ∧
    ∀ i j, i < M.rows → j < M.cols →
      (scalarMulLeft s M).1.data i j = M.data i j * s := by
  refine ⟨rfl, rfl, rfl, rfl, ?_⟩
  intro i j hi hj
  simp [scalarMulLeft, scalarMulAssign, hi, hj]

/-- C7 witness for the amended statement. -/
theorem scalarMulLeft_spec_witness :
    (0 : Nat) < exOne.rows ∧ (0 : Nat) < exOne.cols ∧
    (scalarMulLeft 2 exOne).1.data 0 0 = exOne.data 0 0 * 2 :=
  ⟨by decide, by decide,
    (scalarMulLeft_spec 2 exOne).2.2.2.2 0 0 (by decide) (by decide)⟩

/-- C9: transposing twice gives back a matrix equal to the original in
shape and element values (under the library's own `operator==`), for every
runtime shape, including reallocated ones. -/
theorem transpose_transpose (M : Matrix Int) :
    matBeq M.transpose.transpose M = true := by
  simp only [matBeq, Matrix.transpose]
  rw [if_neg (by simp)]
  simp only [List.all_eq_true, List.mem_range]
  intro i hi j hj
  simp [hi, hj]

/-- C10: the fill helper named `zeros` writes `1` (not `0`) into every
in-range cell; the default constructor and `realloc` both invoke it, so
after either, every cell holds `1` (and `realloc` marks the matrix as
reallocated). -/
theorem zeros_spec :
    (∀ M : Matrix Int, ∀ i j, i < M.rows → j < M.cols →
      (zerosFill M).data i j = 1) ∧
    (∀ rows cols junk i j, i < rows → j < cols →
      (defaultMatrix rows cols junk).data i j = 1 ∧
      (defaultMatrix rows cols junk).reallocated = false) ∧
    (∀ (M : Matrix Int) (r c i j : Nat), i < r → j < c →
      (M.reallocTo r c).data i j = 1 ∧ (M.reallocTo r c).reallocated = true) := by
  refine ⟨?_, ?_, ?_⟩ <;> intros <;>
    simp_all [zerosFill, defaultMatrix, Matrix.reallocTo]

/-- C10 witness: a freshly constructed 2x3 matrix and a 3x2 realloc. -/
theorem zeros_spec_witness :
    (1 : Nat) < 2 ∧ (2 : Nat) < 3 ∧
    (defaultMatrix 2 3 (fun _ _ => 0)).data 1 2 = 1 ∧
    (defaultMatrix 2 3 (fun _ _ => 0)).reallocated = false ∧
    (exM.reallocTo 3 2).data 2 1 = 1 ∧ (exM.reallocTo 3 2).reallocated = true :=
  ⟨by decide, by decide,
    (zeros_spec.2.1 2 3 (fun _ _ => 0) 1 2 (by decide) (by decide)).1,
    (zeros_spec.2.1 2 3 (fun _ _ => 0) 1 2 (by decide) (by decide)).2,
    (zeros_spec.2.2 exM 3 2 2 1 (by decide) (by decide)).1,
    (zeros_spec.2.2 exM 3 2 2 1 (by decide) (by decide)).2⟩

/-- Row-major positions are uniquely decoded: `i * cols + j` with
`j < cols` determines `i` and `j`. -/
lemma rowMajor_inj {cols i j r c : Nat} (hj : j < cols) (hc : c < cols)
    (h : i * cols + j = r * cols + c) : i = r ∧ j = c := by
  have hcols : 0 < cols := Nat.lt_of_le_of_lt (Nat.zero_le j) hj
  have key : ∀ a b : Nat, b < cols → (a * cols + b) / cols = a := by
    intro a b hb
    rw [Nat.add_comm, Nat.mul_comm, Nat.add_mul_div_left _ _ hcols,
      Nat.div_eq_of_lt hb, Nat.zero_add]
  have h1 : i = r := by
    have h2 := congrArg (fun t => t / cols) h
    simpa [key _ _ hj, key _ _ hc] using h2
  subst h1
  omega

/-- Reconciling one fill step with the row-major specification: the cell
at number `rn * cols + cn` receives the head element, later cells are
covered by the tail, and all other cells are untouched. -/
lemma fill_zone (cols : Nat) (e : Int) (rest : List Int) (d : Nat → Nat → Int)
    (rn cn i j : Nat) (hcn : cn < cols) (hj : j < cols) :
    (if rn * cols + cn + 1 ≤ i * cols + j ∧
        i * cols + j < rn * cols + cn + 1 + rest.length then
      rest.getD (i * cols + j - (rn * cols + cn + 1)) 0
    else if i = rn ∧ j = cn then e else d i j) =
    if rn * cols + cn ≤ i * cols + j ∧
        i * cols + j < rn * cols + cn + (rest.length + 1) then
      (e :: rest).getD (i * cols + j - (rn * cols + cn)) 0
    else d i j := by
  by_cases hA : i = rn ∧ j = cn
  · obtain ⟨rfl, rfl⟩ := hA
    rw [if_neg (by omega), if_pos ⟨rfl, rfl⟩, if_pos (by omega), Nat.sub_self,
      List.getD_cons_zero]
  · have hneq : i * cols + j ≠ rn * cols + cn := fun h => hA (rowMajor_inj hj hcn h)
    by_cases hB : rn * cols + cn + 1 ≤ i * cols + j ∧
        i * cols + j < rn * cols + cn + 1 + rest.length
    · rw [if_pos hB, if_pos (by omega)]
      have hd : i * cols + j - (rn * cols + cn) =
          (i * cols + j - (rn * cols + cn + 1)) + 1 := by omega
      rw [hd, List.getD_cons_succ]
    · rw [if_neg hB, if_neg hA, if_neg (by omega)]

/-- The literal-list fill loop, started at cell number
`rn * cols + cn`, writes the `m`-th element of the list into the cell
numbered `rn * cols + cn + m` (row-major), and leaves every other cell
alone. -/
lemma fillLoop_getD (rows cols : Nat) (elems : List Int) :
    ∀ (rn cn : Nat) (d : Nat → Nat → Int),
      cn < cols → rn < rows →
      rn * cols + cn + elems.length ≤ rows * cols →
      ∀ i j, i < rows → j < cols →
        fillLoop rows cols elems (rn, cn) d i j =
          if rn * cols + cn ≤ i * cols + j ∧
              i * cols + j < rn * cols + cn + elems.length then
            elems.getD (i * cols + j - (rn * cols + cn)) 0
          else d i j := by
  induction elems with
  | nil =>
    intro rn cn d _ _ _ i j _ _
    rw [fillLoop]
    simp only [List.length_nil]
    rw [if_neg (by omega)]
  | cons e rest ih =>
    intro rn cn d hcn hrn hlen i j hi hj
    simp only [List.length_cons] at hlen ⊢
    rw [fillLoop]
    by_cases hstall : cn = cols - 1 ∧ rn = rows - 1
    · have hK : rn * cols + cn + 1 = rows * cols := by
        have hrows : rows = rn + 1 := by omega
        rw [hrows, Nat.succ_mul rn cols]
        omega
      have hrl : rest.length = 0 := by omega
      have hrest : rest = [] := List.length_eq_zero.mp hrl
      subst hrest
      rw [fillLoop]
      simp only [List.length_nil]
      by_cases hA : i = rn ∧ j = cn
      · obtain ⟨rfl, rfl⟩ := hA
        rw [if_pos ⟨rfl, rfl⟩, if_pos (by omega), Nat.sub_self,
          List.getD_cons_zero]
      · have hneq : i * cols + j ≠ rn * cols + cn :=
          fun h => hA (rowMajor_inj hj hcn h)
        rw [if_neg hA, if_neg (by omega)]
    · have hK1 : rn * cols + cn + 1 + rest.length ≤ rows * cols := by
        by_cases h1 : cn ≠ cols - 1
        · omega
        · have hde : cols = cn + 1 := by omega
          have hr2 : rn ≠ rows - 1 := fun h2 => hstall ⟨not_not.mp h1, h2⟩
          have hrn1 : rn + 1 ≤ rows := by omega
          have hstep : (rn + 1) * cols ≤ rows * cols :=
            Nat.mul_le_mul_right cols hrn1
          rw [Nat.succ_mul] at hstep
          omega
      by_cases h1 : cn ≠ cols - 1
      · rw [if_pos h1]
        have hcn1 : cn + 1 < cols := by omega
        have H := ih rn (cn + 1)
          (fun a b => if a = rn ∧ b = cn then e else d a b)
          hcn1 hrn (by omega) i j hi hj
        rw [H]
        have e1 : rn * cols + (cn + 1) = rn * cols + cn + 1 := by omega
        rw [e1]
        exact fill_zone cols e rest d rn cn i j hcn hj
      · rw [if_neg h1]
        have h2 : rn ≠ rows - 1 := fun h2 => hstall ⟨not_not.mp h1, h2⟩
        rw [if_pos h2]
        have hkey : (rn + 1) * cols + 0 = rn * cols + cn + 1 := by
          rw [Nat.succ_mul]
          omega
        have hrn1 : rn + 1 < rows := by omega
        have H := ih (rn + 1) 0
          (fun a b => if a = rn ∧ b = cn then e else d a b)
          (by omega) hrn1 (by rw [hkey]; omega) i j hi hj
        rw [H, hkey]
        exact fill_zone cols e rest d rn cn i j hcn hj

/-- C5: literal-list construction fails with `std::invalid_argument` when
the element count differs from `rows * cols`, and on an exact count it
succeeds and places the elements in row-major order. -/
theorem ctorList_spec :
    (∀ rows cols elems junk, elems.length ≠ rows * cols →
      ctorList rows cols elems junk = .error .invalidArgument) ∧
    (∀ rows cols elems junk, elems.length = rows * cols →
      ∃ M, ctorList rows cols elems junk = .ok M ∧
        M.rows = rows ∧ M.cols = cols ∧
        ∀ i j, i < rows → j < cols →
          M.data i j = elems.getD (i * cols + j) 0) := by
  constructor
  · intro rows cols elems junk h
    simp only [ctorList, if_pos h]
  · intro rows cols elems junk h
    simp only [ctorList, if_neg (not_not.mpr h)]
    refine ⟨_, rfl, rfl, rfl, ?_⟩
    intro i j hi hj
    have h0 : (0 : Nat) < cols := Nat.lt_of_le_of_lt (Nat.zero_le j) hj
    have h1 : (0 : Nat) < rows := Nat.lt_of_le_of_lt (Nat.zero_le i) hi
    have hb : i * cols + j < rows * cols := by
      calc i * cols + j < i * cols + cols := by omega
        _ = (i + 1) * cols := by rw [Nat.succ_mul]
        _ ≤ rows * cols := Nat.mul_le_mul_right cols (Nat.succ_le_of_lt hi)
    have H := fillLoop_getD rows cols elems 0 0 junk h0 h1 (by omega) i j hi hj
    simp only [Nat.zero_mul, Nat.zero_add, Nat.sub_zero] at H
    show fillLoop rows cols elems (0, 0) junk i j = elems.getD (i * cols + j) 0
    rw [H, if_pos ⟨Nat.zero_le _, by omega⟩]

/-- C5 witness: a 6-element list filling a 2x3 matrix row-major, and a
wrong-length list. -/
theorem ctorList_spec_witness :
    ([10, 20, 30, 40, 50, 60] : List Int).length = 2 * 3 ∧
    (∃ M, ctorList 2 3 [10, 20, 30, 40, 50, 60] (fun _ _ => 0) = .ok M ∧
      M.rows = 2 ∧ M.cols = 3 ∧
      ∀ i j, i < 2 → j < 3 →
        M.data i j = ([10, 20, 30, 40, 50, 60] : List Int).getD (i * 3 + j) 0) ∧
    ([10, 20, 30] : List Int).length ≠ 2 * 3 ∧
    ctorList 2 3 [10, 20, 30] (fun _ _ => 0) = .error .invalidArgument :=
  ⟨rfl, ctorList_spec.2 2 3 [10, 20, 30, 40, 50, 60] (fun _ _ => 0) rfl,
    by decide, ctorList_spec.1 2 3 [10, 20, 30] (fun _ _ => 0) (by decide)⟩

/-- C8: for valid indices, a write through the Row view's index operator
lands in the bound matrix's live storage — the container's own accessor
sees the new value immediately — while the view's snapshot keeps the
values copied at construction time. -/
theorem rowWrite_spec (M : Matrix Int) (r c : Nat) (v : Int)
    (hr : r < M.rows) (hc : c < M.cols) :
    ∃ rv, M.indexOp r = .ok rv ∧
      rv.snapshot = ((List.range M.cols).map fun i => M.data r i) ∧
      ∃ M2, rowWrite M rv c v = .ok (M2, rv) ∧
        M2.callOp r c = .ok v ∧ M2.rows = M.rows ∧ M2.cols = M.cols ∧
        ∀ i j, ¬(i = r ∧ j = c) → M2.data i j = M.data i j := by
  have h1 : ¬(r > M.rows - 1) := by omega
  have h2 : ¬(c > M.cols - 1) := by omega
  refine ⟨{ snapshot := (List.range M.cols).map fun i => M.data r i, n_row := r },
    by simp only [Matrix.indexOp]; rw [if_neg h1], rfl,
    { M with data := fun i j => if i = r ∧ j = c then v else M.data i j },
    by simp [rowWrite, h1, h2], ?_, rfl, rfl, ?_⟩
  · simp [Matrix.callOp, h1, h2]
  · intro i j hij
    simp [hij]

/-- C8 witness: writing 9 through row view 1 of a 2x2 matrix at column 0. -/
theorem rowWrite_spec_witness :
    (1 : Nat) < exM.rows ∧ (0 : Nat) < exM.cols ∧
    (∃ rv, exM.indexOp 1 = .ok rv ∧
      rv.snapshot = ((List.range exM.cols).map fun i => exM.data 1 i) ∧
      ∃ M2, rowWrite exM rv 0 9 = .ok (M2, rv) ∧
        M2.callOp 1 0 = .ok 9 ∧ M2.rows = exM.rows ∧ M2.cols = exM.cols ∧
        ∀ i j, ¬(i = 1 ∧ j = 0) → M2.data i j = exM.data i j) :=
  ⟨by decide, by decide, rowWrite_spec exM 1 0 9 (by decide) (by decide)⟩

/-- The pivot-search loop returns `n` (the row count) when every entry of
the searched column at or below the start row is zero. -/
lemma findRow_all_zero (temp : List (List ℚ)) (n colI : Nat) :
    ∀ fuel r, r ≤ n → n ≤ r + fuel →
      (∀ k, r ≤ k → k < n → getE temp k colI = 0) →
      findRow temp n colI fuel r = n := by
  intro fuel
  induction fuel with
  | zero =>
    intro r h1 h2 _
    rw [findRow]
    omega
  | succ m ih =>
    intro r h1 h2 hz
    rw [findRow]
    by_cases hr : r < n
    · rw [if_pos ⟨hr, hz r le_rfl hr⟩]
      exact ih (r + 1) (by omega) (by omega) fun k hk1 hk2 => hz k (by omega) hk2
    · rw [if_neg fun h => hr h.1]
      omega

/-- Reading column 0 of the `double` working copy built from a matrix. -/
lemma getE_mapRange (rows cols : Nat) (f : Nat → Nat → ℚ) (k : Nat)
    (hk : k < rows) (hc : 0 < cols) :
    getE ((List.range rows).map fun i => (List.range cols).map fun j => f i j)
      k 0 = f k 0 := by
  have hrow :
      ((List.range rows).map fun i => (List.range cols).map fun j => f i j).getD k []
        = (List.range cols).map fun j => f k j := by
    rw [List.getD_eq_getElem?_getD, List.getElem?_map, List.getElem?_range hk]
    simp only [Option.map_some', Option.getD_some]
  unfold getE
  rw [hrow, List.getD_eq_getElem?_getD, List.getElem?_map, List.getElem?_range hc]
  simp only [Option.map_some', Option.getD_some]

def detEx : Matrix ℚ := ofRowsQ 2 2 [[2, 3], [4, 5]]

def detSwapEx : Matrix ℚ := ofRowsQ 2 2 [[0, 1], [1, 0]]

def detTinyEx : Matrix ℚ := ofRowsQ 1 1 [[1 / 1000000]]

def detZeroColEx : Matrix ℚ := ofRowsQ 2 2 [[0, 7], [0, 9]]

/-- C2: the elimination determinant gives `-2` on `{{2,3},{4,5}}`;
first-nonzero pivoting with a row swap flips the sign (`{{0,1},{1,0}}`
gives `-1`); the final product is rounded to 5 decimal places (so a `1e-6`
pivot rounds to `0`); and a column with no non-zero pivot makes the result
`0`. -/
theorem det_spec :
    detEx.det = .ok (-2) ∧
    detSwapEx.det = .ok (-1) ∧
    detTinyEx.det = .ok 0 ∧
    ∀ M : Matrix ℚ, M.rows = M.cols → 0 < M.rows →
      (∀ r, r < M.rows → M.data r 0 = 0) → M.det = .ok 0 := by
  refine ⟨?_, ?_, ?_, ?_⟩
  · norm_num [Matrix.det, detLoop, findRow, getE, swapRows, elimBelow, roundTo5,
      cppRound, detEx, ofRowsQ, List.range_succ, Int.ceil_neg]
  · norm_num [Matrix.det, detLoop, findRow, getE, swapRows, elimBelow, roundTo5,
      cppRound, detSwapEx, ofRowsQ, List.range_succ, Int.ceil_neg]
  · norm_num [Matrix.det, detLoop, findRow, getE, swapRows, elimBelow, roundTo5,
      cppRound, detTinyEx, ofRowsQ, List.range_succ, Int.ceil_neg]
  · intro M hsq hpos hz
    obtain ⟨m, hm⟩ : ∃ m, M.rows = m + 1 := ⟨M.rows - 1, by omega⟩
    have hcols : 0 < M.cols := hsq ▸ hpos
    have hfind :
        findRow
          ((List.range M.rows).map fun i => (List.range M.cols).map fun j => M.data i j)
          M.rows 0 M.rows 0 = M.rows :=
      findRow_all_zero _ _ _ M.rows 0 (Nat.zero_le _) (by omega)
        fun k _ hk2 => by rw [getE_mapRange M.rows M.cols M.data k hk2 hcols]; exact hz k hk2
    have hloop :
        detLoop M.rows M.rows 0
          ((List.range M.rows).map fun i => (List.range M.cols).map fun j => M.data i j)
          1 = none := by
      conv_lhs => rw [hm]
      rw [detLoop]
      rw [hm] at hfind
      simp only [hfind, if_pos]
    simp only [Matrix.det, if_neg (not_not.mpr hsq), hloop]

/-- C2 witness for the singular-column clause. -/
theorem det_spec_witness :
    detZeroColEx.rows = detZeroColEx.cols ∧ 0 < detZeroColEx.rows ∧
    (∀ r, r < detZeroColEx.rows → detZeroColEx.data r 0 = 0) ∧
    detZeroColEx.det = .ok 0 :=
  ⟨rfl, by decide, by decide,
    det_spec.2.2.2 detZeroColEx rfl (by decide) (by decide)⟩

end Mtl
